import Mathlib

/-!
Verification of the render-state store of `src/test-renderer/createMockStore.ts`
(react-three-fiber test renderer).

The development shallowly embeds the store's slices:

* the frame subscriber registry (`internal.subscribe` and the unsubscribe
  closure it returns),
* the performance governor (`performance.regress` together with the host
  timer facility `setTimeout`/`clearTimeout`),
* the viewport calculator (`getCurrentViewport`), and
* the store-level mutation entry points (`setSize`, `setCamera`,
  `setPixelRatio`) of the state object built by `createMockStore`.

JavaScript numbers are modelled as exact rationals (`ℚ`) where the source
only moves and compares them (pixel ratios, performance scalars, priorities,
timestamps) and as real numbers (`ℝ`) where the source computes with
`Math.tan` / square roots (the viewport math).  A small IEEE-style type
`JSNum` with explicit `nan`/infinity values is used where a claim is about
the special-value behaviour of JavaScript floats.
-/

/-! ## Frame subscriber registry

Source: `createMockStore.ts` lines 199-231 (`internal.subscribe` and the
returned unsubscribe closure).  A subscriber entry in the source is the
object `{ ref, priority }`; the `seq` field below is ghost instrumentation
recording the registration order (the spec's "insertion sequence number"),
so that tie-breaking claims can be stated.  It does not influence any
operation: `subscribe` sorts by `priority` only and the unsubscribe closure
filters by `ref` only, exactly as the source does. -/

structure SubEntry where
  ref : ℕ
  priority : ℤ
  seq : ℕ
deriving DecidableEq, Repr

/-- Insert `x` after every element whose priority is `≤ x.priority`.
Folding this over a list (`stableSortP`) is a stable sort by priority: it
models `Array.prototype.sort((a, b) => a.priority - b.priority)`, which the
ECMAScript specification requires to be a stable sort. -/
def insAfter (x : SubEntry) : List SubEntry → List SubEntry
  | [] => [x]
  | y :: ys => if y.priority ≤ x.priority then y :: insAfter x ys else x :: y :: ys

/-- Stable sort of the subscriber array by priority (see `insAfter`). -/
def stableSortP (l : List SubEntry) : List SubEntry :=
  l.foldl (fun acc x => insAfter x acc) []

/-- State of the registry slice: `internal.subscribers`, `internal.manual`
(the manual-render counter, a plain JavaScript number that the source can
drive below zero), and the ghost registration counter `nextSeq`. -/
structure RegState where
  subscribers : List SubEntry
  manual : ℤ
  nextSeq : ℕ
deriving DecidableEq, Repr

def initRegState : RegState := { subscribers := [], manual := 0, nextSeq := 0 }

/-- The body of `subscribe(ref, priority = 0)`:
`if (priority) internal.manual++`, push the entry, then re-sort by priority
(source lines 212-222). -/
def subStep (st : RegState) (ref : ℕ) (priority : ℤ) : RegState :=
  { subscribers := stableSortP (st.subscribers ++ [⟨ref, priority, st.nextSeq⟩])
    manual := if priority ≠ 0 then st.manual + 1 else st.manual
    nextSeq := st.nextSeq + 1 }

/-- The unsubscribe closure returned by `subscribe` (source lines 223-229),
invoked with the `ref` and `priority` it captured.  The guard
`if (internal?.subscribers)` is always satisfied (an empty JavaScript array
is truthy), so each invocation decrements `manual` when the captured
priority is nonzero and filters out every entry whose `ref` matches. -/
def unsubStep (st : RegState) (ref : ℕ) (priority : ℤ) : RegState :=
  { subscribers := st.subscribers.filter (fun s => s.ref != ref)
    manual := if priority ≠ 0 then st.manual - 1 else st.manual
    nextSeq := st.nextSeq }

/-- A registry operation: a `subscribe` call, or one invocation of an
unsubscribe closure that captured the given `ref` and `priority`. -/
inductive RegOp where
  | sub (ref : ℕ) (priority : ℤ)
  | unsub (ref : ℕ) (priority : ℤ)
deriving DecidableEq, Repr

def regStep (st : RegState) : RegOp → RegState
  | RegOp.sub r p => subStep st r p
  | RegOp.unsub r p => unsubStep st r p

def applyRegOps (st : RegState) (ops : List RegOp) : RegState :=
  ops.foldl regStep st

/-- Ordering relation of the registry invariant: ascending priority, ties in
registration (ghost `seq`) order. -/
def RegR (a b : SubEntry) : Prop :=
  a.priority < b.priority ∨ (a.priority = b.priority ∧ a.seq < b.seq)

/-- Registry invariant: the subscriber list is sorted ascending by priority
with ties in registration order, and every ghost sequence number is below
the registration counter. -/
def RegInvariant (st : RegState) : Prop :=
  st.subscribers.Pairwise RegR ∧ ∀ e ∈ st.subscribers, e.seq < st.nextSeq

theorem insAfter_eq_append (x : SubEntry) (l : List SubEntry)
    (h : ∀ y ∈ l, y.priority ≤ x.priority) : insAfter x l = l ++ [x] := by
  induction l with
  | nil => rfl
  | cons y ys ih =>
    have hy : y.priority ≤ x.priority := h y (List.mem_cons_self _ _)
    simp [insAfter, hy, ih (fun z hz => h z (List.mem_cons_of_mem _ hz))]

theorem foldl_insAfter_sorted (l : List SubEntry) : ∀ acc : List SubEntry,
    (acc ++ l).Pairwise (fun a b => a.priority ≤ b.priority) →
    l.foldl (fun acc x => insAfter x acc) acc = acc ++ l := by
  induction l with
  | nil => intro acc _; simp
  | cons x xs ih =>
    intro acc h
    have hax : ∀ y ∈ acc, y.priority ≤ x.priority := by
      have := (List.pairwise_append.mp h).2.2
      intro y hy; exact this y hy x (List.mem_cons_self _ _)
    have hstep : insAfter x acc = acc ++ [x] := insAfter_eq_append x acc hax
    have hre : (acc ++ [x]) ++ xs = acc ++ x :: xs := by simp
    calc (x :: xs).foldl (fun acc x => insAfter x acc) acc
        = xs.foldl (fun acc x => insAfter x acc) (insAfter x acc) := rfl
      _ = xs.foldl (fun acc x => insAfter x acc) (acc ++ [x]) := by rw [hstep]
      _ = (acc ++ [x]) ++ xs := ih (acc ++ [x]) (by rw [hre]; exact h)
      _ = acc ++ x :: xs := hre

theorem stableSortP_of_sorted (l : List SubEntry)
    (h : l.Pairwise (fun a b => a.priority ≤ b.priority)) : stableSortP l = l := by
  have := foldl_insAfter_sorted l [] (by simpa using h)
  simpa [stableSortP] using this

theorem stableSortP_concat (l : List SubEntry) (x : SubEntry) :
    stableSortP (l ++ [x]) = insAfter x (stableSortP l) := by
  simp [stableSortP, List.foldl_append]

theorem mem_insAfter (x : SubEntry) (l : List SubEntry) (a : SubEntry) :
    a ∈ insAfter x l ↔ a = x ∨ a ∈ l := by
  induction l with
  | nil => simp [insAfter]
  | cons y ys ih =>
    by_cases hc : y.priority ≤ x.priority
    · simp only [insAfter, if_pos hc, List.mem_cons, ih]
      tauto
    · simp only [insAfter, if_neg hc, List.mem_cons]

theorem insAfter_pairwise (x : SubEntry) (l : List SubEntry)
    (h : l.Pairwise RegR) (hseq : ∀ y ∈ l, y.seq < x.seq) :
    (insAfter x l).Pairwise RegR := by
  induction l with
  | nil => simp [insAfter, List.pairwise_singleton]
  | cons y ys ih =>
    rcases List.pairwise_cons.mp h with ⟨hy, hys⟩
    by_cases hc : y.priority ≤ x.priority
    · have : (y :: insAfter x ys).Pairwise RegR := by
        refine List.pairwise_cons.mpr ⟨?_, ih hys (fun z hz => hseq z (List.mem_cons_of_mem _ hz))⟩
        intro z hz
        rcases (mem_insAfter x ys z).mp hz with rfl | hzys
        · rcases lt_or_eq_of_le hc with hlt | heq
          · exact Or.inl hlt
          · exact Or.inr ⟨heq, hseq y (List.mem_cons_self _ _)⟩
        · exact hy z hzys
      simpa [insAfter, hc] using this
    · have hxy : x.priority < y.priority := lt_of_not_le hc
      have : (x :: y :: ys).Pairwise RegR := by
        refine List.pairwise_cons.mpr ⟨?_, h⟩
        intro z hz
        rcases List.mem_cons.mp hz with rfl | hzys
        · exact Or.inl hxy
        · rcases hy z hzys with hlt | ⟨heq, _⟩
          · exact Or.inl (lt_trans hxy hlt)
          · exact Or.inl (heq ▸ hxy)
      simpa [insAfter, hc] using this

theorem regInvariant_preserved (st : RegState) (op : RegOp)
    (h : RegInvariant st) : RegInvariant (regStep st op) := by
  obtain ⟨hpw, hseq⟩ := h
  cases op with
  | sub r p =>
    have hsorted : st.subscribers.Pairwise (fun a b => a.priority ≤ b.priority) :=
      hpw.imp (fun h => by rcases h with h | ⟨h, _⟩ <;> simp [le_of_lt, le_of_eq, *])
    have heq : stableSortP (st.subscribers ++ [⟨r, p, st.nextSeq⟩])
        = insAfter ⟨r, p, st.nextSeq⟩ st.subscribers := by
      rw [stableSortP_concat, stableSortP_of_sorted _ hsorted]
    constructor
    · simp only [regStep, subStep, heq]
      exact insAfter_pairwise _ _ hpw (fun y hy => hseq y hy)
    · intro e he
      simp only [regStep, subStep, heq] at he ⊢
      rcases (mem_insAfter _ _ _).mp he with rfl | hmem
      · exact Nat.lt_succ_self _
      · exact Nat.lt_succ_of_lt (hseq e hmem)
  | unsub r p =>
    constructor
    · exact hpw.sublist (List.filter_sublist _)
    · intro e he
      exact hseq e (List.mem_of_mem_filter he)

theorem regInvariant_applyRegOps (ops : List RegOp) :
    ∀ st : RegState, RegInvariant st → RegInvariant (applyRegOps st ops) := by
  induction ops with
  | nil => intro st h; exact h
  | cons op rest ih =>
    intro st h
    exact ih (regStep st op) (regInvariant_preserved st op h)

/-- C5: after every sequence of subscribe and unsubscribe operations, the
subscriber list is sorted ascending by priority, with equal priorities in
registration order (the ghost `seq` field records registration order); in
particular registering priorities [5, 1, 3] yields the tick sequence in
priority order [1, 3, 5]. -/
theorem subscribers_sorted_invariant :
    (∀ ops : List RegOp, RegInvariant (applyRegOps initRegState ops)) ∧
    (applyRegOps initRegState
        [RegOp.sub 10 5, RegOp.sub 11 1, RegOp.sub 12 3]).subscribers.map
        SubEntry.priority = [1, 3, 5] := by
  constructor
  · intro ops
    exact regInvariant_applyRegOps ops initRegState (by constructor <;> simp [initRegState])
  · decide

/-! ## Counting and permutation lemmas for the registry -/

/-- Number of nonzero-priority entries in a subscriber list. -/
def countNonzero (l : List SubEntry) : ℕ :=
  l.countP (fun e => e.priority != 0)

theorem insAfter_perm (x : SubEntry) (l : List SubEntry) :
    (insAfter x l).Perm (x :: l) := by
  induction l with
  | nil => exact List.Perm.refl _
  | cons y ys ih =>
    by_cases hc : y.priority ≤ x.priority
    · simp only [insAfter, if_pos hc]
      exact (ih.cons y).trans (List.Perm.swap x y ys)
    · simp only [insAfter, if_neg hc]
      exact List.Perm.refl _

theorem foldl_insAfter_perm (l : List SubEntry) : ∀ acc : List SubEntry,
    (l.foldl (fun acc x => insAfter x acc) acc).Perm (acc ++ l) := by
  induction l with
  | nil => intro acc; simp
  | cons x xs ih =>
    intro acc
    have h1 : (insAfter x acc).Perm (acc ++ [x]) :=
      (insAfter_perm x acc).trans (List.perm_append_singleton x acc).symm
    have h2 := ih (insAfter x acc)
    refine h2.trans ?_
    have := h1.append_right xs
    simpa using this

theorem stableSortP_perm (l : List SubEntry) : (stableSortP l).Perm l := by
  simpa [stableSortP] using foldl_insAfter_perm l []

/-- Projection of an entry to the data in the source object `{ ref, priority }`. -/
def entryPair (e : SubEntry) : ℕ × ℤ := (e.ref, e.priority)

/-- Perform a list of `subscribe(ref, priority)` calls. -/
def subAll (st : RegState) (subs : List (ℕ × ℤ)) : RegState :=
  subs.foldl (fun s x => subStep s x.1 x.2) st

/-- Invoke a list of unsubscribe closures, each captured `(ref, priority)`. -/
def unsubAll (st : RegState) (unsubs : List (ℕ × ℤ)) : RegState :=
  unsubs.foldl (fun s u => unsubStep s u.1 u.2) st

theorem subStep_pairs_perm (st : RegState) (r : ℕ) (p : ℤ) :
    ((subStep st r p).subscribers.map entryPair).Perm
      (st.subscribers.map entryPair ++ [(r, p)]) := by
  have h := (stableSortP_perm (st.subscribers ++ [⟨r, p, st.nextSeq⟩])).map entryPair
  simpa [subStep, entryPair] using h

theorem subAll_pairs_perm (subs : List (ℕ × ℤ)) : ∀ st : RegState,
    ((subAll st subs).subscribers.map entryPair).Perm
      (st.subscribers.map entryPair ++ subs) := by
  induction subs with
  | nil => intro st; simp [subAll]
  | cons x xs ih =>
    intro st
    have h1 := (subStep_pairs_perm st x.1 x.2).append_right xs
    have h2 : (st.subscribers.map entryPair ++ [x]) ++ xs
        = st.subscribers.map entryPair ++ x :: xs := by simp
    rw [h2] at h1
    have htail := ih (subStep st x.1 x.2)
    have hdef : subAll st (x :: xs) = subAll (subStep st x.1 x.2) xs := rfl
    rw [hdef]
    exact htail.trans h1

theorem subAll_manual (subs : List (ℕ × ℤ)) : ∀ st : RegState,
    st.manual = (countNonzero st.subscribers : ℤ) →
    (subAll st subs).manual = (countNonzero (subAll st subs).subscribers : ℤ) := by
  induction subs with
  | nil => intro st h; exact h
  | cons x xs ih =>
    intro st h
    refine ih (subStep st x.1 x.2) ?_
    have hperm : ((subStep st x.1 x.2).subscribers).Perm
        (st.subscribers ++ [⟨x.1, x.2, st.nextSeq⟩]) :=
      stableSortP_perm _
    have hcnt : countNonzero (subStep st x.1 x.2).subscribers
        = countNonzero st.subscribers + (if x.2 ≠ 0 then 1 else 0) := by
      have := hperm.countP_eq (fun e => e.priority != 0)
      simp only [countNonzero, this, List.countP_append, List.countP_cons,
        List.countP_nil]
      by_cases hz : x.2 = 0 <;> simp [hz]
    show (if x.2 ≠ 0 then st.manual + 1 else st.manual) = _
    rw [hcnt]
    by_cases hz : x.2 = 0 <;> simp [hz, h]

theorem filter_perm_of_mem (l : List SubEntry) (e : SubEntry) :
    e ∈ l → (l.map SubEntry.ref).Nodup →
    l.Perm (e :: l.filter (fun s => s.ref != e.ref)) := by
  induction l with
  | nil => intro h; exact absurd h (List.not_mem_nil e)
  | cons a tl ih =>
    intro hmem hnd
    rcases List.nodup_cons.mp hnd with ⟨hna, hndtl⟩
    by_cases hr : a.ref = e.ref
    · have hae : a = e := by
        rcases List.mem_cons.mp hmem with rfl | hetl
        · rfl
        · exact absurd (hr ▸ List.mem_map_of_mem SubEntry.ref hetl) hna
      subst hae
      have hfl : tl.filter (fun s => s.ref != a.ref) = tl := by
        refine List.filter_eq_self.mpr ?_
        intro s hs
        have : s.ref ≠ a.ref := by
          intro hcontra
          exact hna (hcontra ▸ List.mem_map_of_mem SubEntry.ref hs)
        simpa using this
      simp [hfl]
    · have hetl : e ∈ tl := by
        rcases List.mem_cons.mp hmem with rfl | hetl
        · exact absurd rfl hr
        · exact hetl
      have hfil : (a :: tl).filter (fun s => s.ref != e.ref)
          = a :: tl.filter (fun s => s.ref != e.ref) := by
        simp [List.filter_cons, hr]
      rw [hfil]
      exact ((ih hetl hndtl).cons a).trans (List.Perm.swap e a _)

theorem unsubAll_manual (R : List (ℕ × ℤ)) : ∀ st : RegState,
    st.manual = (countNonzero st.subscribers : ℤ) →
    (st.subscribers.map SubEntry.ref).Nodup →
    (∀ u ∈ R, ∃ e ∈ st.subscribers, e.ref = u.1 ∧ e.priority = u.2) →
    (R.map Prod.fst).Nodup →
    (unsubAll st R).manual = (countNonzero (unsubAll st R).subscribers : ℤ) := by
  induction R with
  | nil => intro st h _ _ _; exact h
  | cons u R' ih =>
    intro st h hnd hex hRnd
    obtain ⟨e, hemem, heref, hepri⟩ := hex u (List.mem_cons_self _ _)
    rcases List.nodup_cons.mp hRnd with ⟨hu1, hRnd'⟩
    have hperm : st.subscribers.Perm
        (e :: st.subscribers.filter (fun s => s.ref != e.ref)) :=
      filter_perm_of_mem st.subscribers e hemem hnd
    have hfilref : st.subscribers.filter (fun s => s.ref != u.1)
        = st.subscribers.filter (fun s => s.ref != e.ref) := by rw [heref]
    have hcnt : countNonzero st.subscribers
        = (if e.priority != 0 then 1 else 0)
          + countNonzero (st.subscribers.filter (fun s => s.ref != e.ref)) := by
      have := hperm.countP_eq (fun x => x.priority != 0)
      simp only [countNonzero, this, List.countP_cons]
      omega
    have hsubl : (st.subscribers.filter (fun s => s.ref != e.ref)).Sublist
        st.subscribers := List.filter_sublist _
    refine ih (unsubStep st u.1 u.2) ?_ ?_ ?_ hRnd'
    · show (if u.2 ≠ 0 then st.manual - 1 else st.manual)
        = (countNonzero ((unsubStep st u.1 u.2).subscribers) : ℤ)
      simp only [unsubStep, hfilref]
      rw [h, hcnt]
      by_cases hz : u.2 = 0
      · have : e.priority = 0 := hepri.trans hz
        simp [hz, this]
      · have : e.priority ≠ 0 := by rw [hepri]; exact hz
        simp [hz, this]
    · show ((st.subscribers.filter (fun s => s.ref != u.1)).map SubEntry.ref).Nodup
      rw [hfilref]
      exact (hsubl.map SubEntry.ref).nodup hnd
    · intro v hv
      obtain ⟨f, hfmem, hfref, hfpri⟩ := hex v (List.mem_cons_of_mem _ hv)
      refine ⟨f, ?_, hfref, hfpri⟩
      show f ∈ st.subscribers.filter (fun s => s.ref != u.1)
      refine List.mem_filter.mpr ⟨hfmem, ?_⟩
      have : v.1 ≠ u.1 := by
        intro hcontra
        exact hu1 (hcontra ▸ List.mem_map_of_mem Prod.fst hv)
      simpa [hfref] using this

/-- C2: the second invocation of an unsubscribe handle is NOT a no-op in the
code.  For a subscription with priority 1, `manual` is 0 after the first
invocation, but the second invocation decrements it again to -1 (the guard
`if (internal?.subscribers)` always passes because an empty array is
truthy), even though the subscriber list itself is unchanged.  This
contradicts the spec's requirement that the second call be a no-op. -/
theorem unsubscribe_double_decrement_bug :
    (unsubStep (subStep initRegState 0 1) 0 1).manual = 0 ∧
    (unsubStep (unsubStep (subStep initRegState 0 1) 0 1) 0 1).manual = -1 ∧
    (unsubStep (unsubStep (subStep initRegState 0 1) 0 1) 0 1).subscribers
      = (unsubStep (subStep initRegState 0 1) 0 1).subscribers := by
  decide

/-- C10: unsubscription removes entries by callback reference.  After
subscribing the same `ref` twice (priorities 3 and 5), the registry holds
two entries with that `ref`; a single invocation of either unsubscribe
handle (the one capturing priority 3, or the one capturing priority 5)
removes both. -/
theorem unsubscribe_removes_by_ref :
    (subAll initRegState [(0, 3), (0, 5)]).subscribers.length = 2 ∧
    (∀ e ∈ (subAll initRegState [(0, 3), (0, 5)]).subscribers, e.ref = 0) ∧
    (unsubStep (subAll initRegState [(0, 3), (0, 5)]) 0 3).subscribers = [] ∧
    (unsubStep (subAll initRegState [(0, 3), (0, 5)]) 0 5).subscribers = [] := by
  decide

/-- C6 counterexample: the `manualCount` invariant fails when the same
callback reference is subscribed more than once.  Subscribing `ref 0` twice
with priority 1 (N = 2) and invoking the first unsubscribe handle once
(M = 1 ≤ N) leaves `manual = 1` while zero nonzero-priority subscribers
remain registered (the single filter removed both entries). -/
theorem manualCount_duplicate_ref_cex :
    (unsubAll (subAll initRegState [(0, 1), (0, 1)]) [(0, 1)]).manual = 1 ∧
    countNonzero
      (unsubAll (subAll initRegState [(0, 1), (0, 1)]) [(0, 1)]).subscribers = 0 := by
  decide

/-- C6 (amended to pairwise-distinct callback references): after N
subscriptions with nonzero priorities and pairwise-distinct refs, followed
by M distinct single invocations of their unsubscribe handles (each handle
invoked at most once, i.e. the unsubscribed `(ref, priority)` pairs have
distinct refs and each comes from a subscription), `manual` equals the
number of still-registered nonzero-priority subscribers. -/
theorem manualCount_invariant_distinct_refs
    (subs unsubs : List (ℕ × ℤ))
    (hnodup : (subs.map Prod.fst).Nodup)
    (hnz : ∀ x ∈ subs, x.2 ≠ 0)
    (hsub : ∀ u ∈ unsubs, u ∈ subs)
    (hunodup : (unsubs.map Prod.fst).Nodup) :
    (unsubAll (subAll initRegState subs) unsubs).manual
      = (countNonzero (unsubAll (subAll initRegState subs) unsubs).subscribers : ℤ) := by
  have hpairs : ((subAll initRegState subs).subscribers.map entryPair).Perm subs := by
    have := subAll_pairs_perm subs initRegState
    simpa [initRegState] using this
  have hman : (subAll initRegState subs).manual
      = (countNonzero (subAll initRegState subs).subscribers : ℤ) :=
    subAll_manual subs initRegState (by simp [initRegState, countNonzero])
  have hcomp : (Prod.fst ∘ entryPair) = SubEntry.ref := funext (fun e => rfl)
  have hrefs : ((subAll initRegState subs).subscribers.map SubEntry.ref).Nodup := by
    have hmap := hpairs.map Prod.fst
    rw [List.map_map, hcomp] at hmap
    exact hmap.nodup_iff.mpr hnodup
  have hex : ∀ u ∈ unsubs, ∃ e ∈ (subAll initRegState subs).subscribers,
      e.ref = u.1 ∧ e.priority = u.2 := by
    intro u hu
    have humem : u ∈ (subAll initRegState subs).subscribers.map entryPair :=
      hpairs.mem_iff.mpr (hsub u hu)
    obtain ⟨e, hemem, hepair⟩ := List.mem_map.mp humem
    exact ⟨e, hemem, congrArg Prod.fst hepair, congrArg Prod.snd hepair⟩
  exact unsubAll_manual unsubs _ hman hrefs hex hunodup

/-- Witness for `manualCount_invariant_distinct_refs`: two distinct-ref
subscriptions with priorities 1 and 2, one of which is unsubscribed. -/
theorem manualCount_invariant_distinct_refs_witness :
    (([((0:ℕ), (1:ℤ)), (1, 2)]).map Prod.fst).Nodup ∧
    (∀ x ∈ [((0:ℕ), (1:ℤ)), (1, 2)], x.2 ≠ 0) ∧
    (∀ u ∈ [((0:ℕ), (1:ℤ))], u ∈ [((0:ℕ), (1:ℤ)), (1, 2)]) ∧
    (([((0:ℕ), (1:ℤ))]).map Prod.fst).Nodup ∧
    (unsubAll (subAll initRegState [((0:ℕ), (1:ℤ)), (1, 2)]) [((0:ℕ), (1:ℤ))]).manual
      = (countNonzero (unsubAll (subAll initRegState [((0:ℕ), (1:ℤ)), (1, 2)])
          [((0:ℕ), (1:ℤ))]).subscribers : ℤ) :=
  ⟨by decide, by decide, by decide, by decide,
    manualCount_invariant_distinct_refs [((0:ℕ), (1:ℤ)), (1, 2)] [((0:ℕ), (1:ℤ))]
      (by decide) (by decide) (by decide) (by decide)⟩

/-! ## Performance governor

Source: `createMockStore.ts` lines 134-136 and 154-170.  The slice
`performance` holds the data fields `{ current, min, max, debounce }`
(defaults `1, 0.5, 1, 200`, then the construction-time partial override is
spread over them) and the operation `regress()`, which

* calls `clearTimeout(performanceTimeout)`,
* sets `current` to `get().performance.min`, and
* stores in `performanceTimeout` the id of a newly scheduled timer that
  after `debounce` milliseconds sets `current` to `get().performance.max`.

The host timer facility is modelled explicitly: `queue` is the set of
scheduled-and-not-yet-fired recovery callbacks as `(id, fireTime)` pairs,
`nextId` generates fresh timer ids, and `timeoutVar` is the JavaScript
variable `performanceTimeout`.  `recoveries` is a ghost log of the fire
times of every recovery-to-max callback that has run, so that claims can
count recovery events. -/

structure PerfState where
  current : ℚ
  min : ℚ
  max : ℚ
  debounce : ℚ
deriving DecidableEq, Repr

/-- Construction-time `performance` prop: a partial override of
`{ min, max, debounce }` spread over the defaults. -/
structure PerfOverride where
  min : Option ℚ
  max : Option ℚ
  debounce : Option ℚ
deriving DecidableEq, Repr

/-- The `performance` data slice built at store construction:
`{ current: 1, min: 0.5, max: 1, debounce: 200, ...performance }`
(source lines 154-159). -/
def mkPerfState (o : PerfOverride) : PerfState :=
  { current := 1
    min := o.min.getD (1 / 2)
    max := o.max.getD 1
    debounce := o.debounce.getD 200 }

structure GovState where
  perf : PerfState
  queue : List (ℕ × ℚ)
  timeoutVar : Option ℕ
  nextId : ℕ
  recoveries : List ℚ
deriving DecidableEq, Repr

def mkGovState (o : PerfOverride) : GovState :=
  { perf := mkPerfState o, queue := [], timeoutVar := none, nextId := 0
    recoveries := [] }

/-- `clearTimeout(performanceTimeout)`: cancel the timer whose id is stored
in the variable; a no-op when the variable is still `undefined`. -/
def clearPending (s : GovState) : List (ℕ × ℚ) :=
  match s.timeoutVar with
  | none => s.queue
  | some id => s.queue.filter (fun e => e.1 != id)

/-- `regress()` called at wall-clock time `now` (source lines 160-169):
cancel the pending recovery timer, set `current = min`, schedule a new
recovery callback `debounce` milliseconds from now and remember its id. -/
def regress (now : ℚ) (s : GovState) : GovState :=
  { perf := { s.perf with current := s.perf.min }
    queue := clearPending s ++ [(s.nextId, now + s.perf.debounce)]
    timeoutVar := some s.nextId
    nextId := s.nextId + 1
    recoveries := s.recoveries }

/-- The host event loop reaching wall-clock time `now`: every scheduled
recovery callback whose fire time has arrived runs (each one sets
`current = get().performance.max`) and leaves the queue. -/
def tick (now : ℚ) (s : GovState) : GovState :=
  { perf := { s.perf with
      current := if (s.queue.filter (fun e => e.2 ≤ now)).isEmpty
        then s.perf.current else s.perf.max }
    queue := s.queue.filter (fun e => !(e.2 ≤ now))
    timeoutVar := s.timeoutVar
    nextId := s.nextId
    recoveries := s.recoveries ++ (s.queue.filter (fun e => e.2 ≤ now)).map Prod.snd }

/-- An event affecting the governor: a `regress()` call or the event loop
reaching a point in time. -/
inductive GovEvent where
  | regress (t : ℚ)
  | tick (t : ℚ)
deriving DecidableEq, Repr

def govStep (s : GovState) : GovEvent → GovState
  | GovEvent.regress t => regress t s
  | GovEvent.tick t => tick t s

def runGov (s : GovState) (evs : List GovEvent) : GovState :=
  evs.foldl govStep s

/-- Timer-slot invariant: every queued recovery callback is the one whose id
`performanceTimeout` currently stores. -/
def GovInv (s : GovState) : Prop :=
  (∀ e ∈ s.queue, s.timeoutVar = some e.1) ∧ s.queue.length ≤ 1

theorem clearPending_eq_nil (s : GovState)
    (h : ∀ e ∈ s.queue, s.timeoutVar = some e.1) : clearPending s = [] := by
  cases hv : s.timeoutVar with
  | none =>
    have : s.queue = [] := by
      cases hq : s.queue with
      | nil => rfl
      | cons e tl =>
        have := h e (hq ▸ List.mem_cons_self e tl)
        rw [hv] at this
        exact absurd this (by simp)
    simp [clearPending, hv, this]
  | some id =>
    simp only [clearPending, hv]
    refine List.filter_eq_nil_iff.mpr ?_
    intro e he
    have hsome := h e he
    rw [hv] at hsome
    have hid : id = e.1 := Option.some_inj.mp hsome
    simp [hid]

theorem govInv_preserved (s : GovState) (ev : GovEvent)
    (h : GovInv s) : GovInv (govStep s ev) := by
  obtain ⟨hall, hlen⟩ := h
  cases ev with
  | regress t =>
    have hclear : clearPending s = [] := clearPending_eq_nil s hall
    constructor
    · intro e he
      simp only [govStep, regress, hclear, List.nil_append, List.mem_singleton] at he
      simp [govStep, regress, he]
    · simp [govStep, regress, hclear]
  | tick t =>
    constructor
    · intro e he
      exact hall e (List.mem_of_mem_filter he)
    · exact le_trans (List.length_filter_le _ _) hlen

theorem govInv_runGov (evs : List GovEvent) : ∀ s : GovState,
    GovInv s → GovInv (runGov s evs) := by
  induction evs with
  | nil => intro s h; exact h
  | cons ev rest ih =>
    intro s h
    exact ih (govStep s ev) (govInv_preserved s ev h)

theorem tick_no_due (now : ℚ) (s : GovState)
    (h : ∀ e ∈ s.queue, ¬ e.2 ≤ now) : tick now s = s := by
  have hdue : s.queue.filter (fun e => e.2 ≤ now) = [] :=
    List.filter_eq_nil_iff.mpr (by intro e he; simpa using h e he)
  have hrest : s.queue.filter (fun e => !(e.2 ≤ now)) = s.queue :=
    List.filter_eq_self.mpr (by intro e he; simpa using h e he)
  simp [tick, hdue, hrest]

theorem tick_foldl_no_due (us : List ℚ) : ∀ s : GovState,
    (∀ u ∈ us, ∀ e ∈ s.queue, ¬ e.2 ≤ u) →
    us.foldl (fun s u => tick u s) s = s := by
  induction us with
  | nil => intro s _; rfl
  | cons u rest ih =>
    intro s h
    have h1 : tick u s = s := tick_no_due u s (h u (List.mem_cons_self _ _))
    calc (u :: rest).foldl (fun s u => tick u s) s
        = rest.foldl (fun s u => tick u s) (tick u s) := rfl
      _ = rest.foldl (fun s u => tick u s) s := by rw [h1]
      _ = s := ih s (fun v hv => h v (List.mem_cons_of_mem _ hv))

/-- C7: `regress()` cancels the pending recovery timer, sets
`current = min` at once, and schedules exactly one recovery callback
`debounce` milliseconds later.  Two `regress()` calls at `t1 ≤ t2` inside
the debounce window (`t2 < t1 + debounce`), with the event loop running at
arbitrary intermediate times `us` between them, produce exactly one
recovery-to-max event, fired at `t2 + debounce` (timed from the second
call); and over any event sequence at most one recovery callback is ever
scheduled (no two recovery callbacks coexist). -/
theorem regress_debounce_spec (o : PerfOverride) (t1 t2 : ℚ) (us : List ℚ)
    (h12 : t1 ≤ t2) (hwin : t2 < t1 + (mkPerfState o).debounce)
    (hus : ∀ u ∈ us, t1 ≤ u ∧ u ≤ t2) :
    (regress t1 (mkGovState o)).queue = [(0, t1 + (mkPerfState o).debounce)] ∧
    (regress t1 (mkGovState o)).perf.current = (mkPerfState o).min ∧
    (regress t2 (us.foldl (fun s u => tick u s)
        (regress t1 (mkGovState o)))).queue
      = [(1, t2 + (mkPerfState o).debounce)] ∧
    (regress t2 (us.foldl (fun s u => tick u s)
        (regress t1 (mkGovState o)))).perf.current = (mkPerfState o).min ∧
    (tick (t2 + (mkPerfState o).debounce) (regress t2 (us.foldl
        (fun s u => tick u s) (regress t1 (mkGovState o))))).recoveries
      = [t2 + (mkPerfState o).debounce] ∧
    (tick (t2 + (mkPerfState o).debounce) (regress t2 (us.foldl
        (fun s u => tick u s) (regress t1 (mkGovState o))))).perf.current
      = (mkPerfState o).max ∧
    (tick (t2 + (mkPerfState o).debounce) (regress t2 (us.foldl
        (fun s u => tick u s) (regress t1 (mkGovState o))))).queue = [] ∧
    ∀ evs : List GovEvent, (runGov (mkGovState o) evs).queue.length ≤ 1 := by
  have hg1 : regress t1 (mkGovState o) =
      { perf := { mkPerfState o with current := (mkPerfState o).min }
        queue := [(0, t1 + (mkPerfState o).debounce)]
        timeoutVar := some 0, nextId := 1, recoveries := [] } := rfl
  have hg2 : us.foldl (fun s u => tick u s) (regress t1 (mkGovState o))
      = regress t1 (mkGovState o) := by
    refine tick_foldl_no_due us _ ?_
    intro u hu e he
    rw [hg1] at he
    rcases List.mem_singleton.mp he with rfl
    intro hle
    exact absurd (lt_of_le_of_lt (le_trans hle (hus u hu).2) hwin) (lt_irrefl _)
  have hg3 : regress t2 (regress t1 (mkGovState o)) =
      { perf := { mkPerfState o with current := (mkPerfState o).min }
        queue := [(1, t2 + (mkPerfState o).debounce)]
        timeoutVar := some 1, nextId := 2, recoveries := [] } := rfl
  have hg4 : tick (t2 + (mkPerfState o).debounce)
      ({ perf := { mkPerfState o with current := (mkPerfState o).min }
         queue := [(1, t2 + (mkPerfState o).debounce)]
         timeoutVar := some 1, nextId := 2, recoveries := [] } : GovState) =
      { perf := { mkPerfState o with current := (mkPerfState o).max }
        queue := []
        timeoutVar := some 1, nextId := 2
        recoveries := [t2 + (mkPerfState o).debounce] } := by
    simp [tick, List.filter_cons]
  have hinv : ∀ evs : List GovEvent,
      (runGov (mkGovState o) evs).queue.length ≤ 1 := by
    intro evs
    refine (govInv_runGov evs (mkGovState o) ⟨?_, ?_⟩).2
    · intro e he
      exact absurd he (List.not_mem_nil e)
    · simp [mkGovState]
  refine ⟨by rw [hg1], by rw [hg1], ?_, ?_, ?_, ?_, ?_, hinv⟩
  · rw [hg2, hg3]
  · rw [hg2, hg3]
  · rw [hg2, hg3, hg4]
  · rw [hg2, hg3, hg4]
  · rw [hg2, hg3, hg4]

/-- Witness for `regress_debounce_spec`: default performance settings
(debounce 200), regressions at t = 0 and t = 100 with an event-loop tick
at t = 50 in between; the single recovery fires at t = 300. -/
theorem regress_debounce_spec_witness :
    (0 : ℚ) ≤ 100 ∧
    (100 : ℚ) < 0 + (mkPerfState ⟨none, none, none⟩).debounce ∧
    (∀ u ∈ ([50] : List ℚ), (0 : ℚ) ≤ u ∧ u ≤ 100) ∧
    (tick (100 + (mkPerfState ⟨none, none, none⟩).debounce)
        (regress 100 (([50] : List ℚ).foldl (fun s u => tick u s)
          (regress 0 (mkGovState ⟨none, none, none⟩))))).recoveries
      = [100 + (mkPerfState ⟨none, none, none⟩).debounce] :=
  ⟨by decide, by norm_num [mkPerfState], by decide,
    (regress_debounce_spec ⟨none, none, none⟩ 0 100 [50] (by decide)
      (by norm_num [mkPerfState]) (by decide)).2.2.2.2.1⟩

theorem govStep_bounds (s : GovState) (ev : GovEvent)
    (h : s.perf.min ≤ s.perf.current ∧ s.perf.current ≤ s.perf.max ∧
      s.perf.min ≤ s.perf.max) :
    (govStep s ev).perf.min ≤ (govStep s ev).perf.current ∧
    (govStep s ev).perf.current ≤ (govStep s ev).perf.max ∧
    (govStep s ev).perf.min ≤ (govStep s ev).perf.max := by
  obtain ⟨h1, h2, h3⟩ := h
  cases ev with
  | regress t => exact ⟨le_refl _, h3, h3⟩
  | tick t =>
    show s.perf.min ≤ (if _ then s.perf.current else s.perf.max) ∧
      (if _ then s.perf.current else s.perf.max) ≤ s.perf.max ∧
      s.perf.min ≤ s.perf.max
    split
    · exact ⟨h1, h2, h3⟩
    · exact ⟨h3, le_refl _, h3⟩

theorem runGov_bounds (evs : List GovEvent) : ∀ s : GovState,
    s.perf.min ≤ s.perf.current ∧ s.perf.current ≤ s.perf.max ∧
      s.perf.min ≤ s.perf.max →
    (runGov s evs).perf.min ≤ (runGov s evs).perf.current ∧
    (runGov s evs).perf.current ≤ (runGov s evs).perf.max ∧
    (runGov s evs).perf.min ≤ (runGov s evs).perf.max := by
  induction evs with
  | nil => intro s h; exact h
  | cons ev rest ih =>
    intro s h
    exact ih (govStep s ev) (govStep_bounds s ev h)

/-- C8 counterexample: construction with the partial performance override
`{ min: 2, max: 3 }` leaves `current` at its default 1, so the freshly
constructed store (the reachable state after zero events) already violates
`performance.min ≤ performance.current`. -/
theorem performance_override_violates_bounds_cex :
    ¬ ((runGov (mkGovState ⟨some 2, some 3, none⟩) []).perf.min
        ≤ (runGov (mkGovState ⟨some 2, some 3, none⟩) []).perf.current) := by
  decide

/-- C8 (amended to overrides whose bounds straddle the default initial
value 1, i.e. min ≤ 1 ≤ max, which the default configuration
min = 0.5, max = 1 satisfies): in every state reachable from construction
through any sequence of regress() calls and recovery-timer firings,
`performance.min ≤ performance.current ≤ performance.max` holds. -/
theorem performance_bounds_invariant (o : PerfOverride) (evs : List GovEvent)
    (hmin : o.min.getD (1 / 2) ≤ 1) (hmax : 1 ≤ o.max.getD 1) :
    (runGov (mkGovState o) evs).perf.min
      ≤ (runGov (mkGovState o) evs).perf.current ∧
    (runGov (mkGovState o) evs).perf.current
      ≤ (runGov (mkGovState o) evs).perf.max := by
  have h := runGov_bounds evs (mkGovState o)
    ⟨hmin, hmax, le_trans hmin hmax⟩
  exact ⟨h.1, h.2.1⟩

/-- Witness for `performance_bounds_invariant`: the default configuration
(no override), one regression at t = 0 followed by its recovery at t = 200. -/
theorem performance_bounds_invariant_witness :
    (⟨none, none, none⟩ : PerfOverride).min.getD (1 / 2) ≤ 1 ∧
    1 ≤ (⟨none, none, none⟩ : PerfOverride).max.getD 1 ∧
    ((runGov (mkGovState ⟨none, none, none⟩)
        [GovEvent.regress 0, GovEvent.tick 200]).perf.min
      ≤ (runGov (mkGovState ⟨none, none, none⟩)
        [GovEvent.regress 0, GovEvent.tick 200]).perf.current ∧
    (runGov (mkGovState ⟨none, none, none⟩)
        [GovEvent.regress 0, GovEvent.tick 200]).perf.current
      ≤ (runGov (mkGovState ⟨none, none, none⟩)
        [GovEvent.regress 0, GovEvent.tick 200]).perf.max) :=
  ⟨by norm_num, by norm_num,
    performance_bounds_invariant ⟨none, none, none⟩
      [GovEvent.regress 0, GovEvent.tick 200] (by norm_num) (by norm_num)⟩

/-! ## Viewport calculator and render-state store

Source: `createMockStore.ts` lines 57-197.  Vectors are modelled as triples
of reals; `dist3` is three.js `Vector3.distanceTo` (Euclidean distance).
A camera is reduced to the fields the viewport math reads: the
`isOrthographicCamera` tag, `zoom`, vertical `fov` in degrees, and the
world position returned by `getWorldPosition` (the source cameras are
placed at `z = 5` and never re-parented, so the world position is the
position). -/

abbrev Vec3 := ℝ × ℝ × ℝ

noncomputable def dist3 (p q : Vec3) : ℝ :=
  Real.sqrt ((p.1 - q.1) ^ 2 + (p.2.1 - q.2.1) ^ 2 + (p.2.2 - q.2.2) ^ 2)

structure Camera where
  isOrthographic : Bool
  zoom : ℝ
  fov : ℝ
  worldPosition : Vec3

structure Size where
  width : ℝ
  height : ℝ

structure ViewportGeom where
  width : ℝ
  height : ℝ
  factor : ℝ
  distance : ℝ
  aspect : ℝ

/-- The default camera of `createMockStore` when `orthographic` is unset:
`new THREE.PerspectiveCamera(75, 0, 0.1, 1000)` with `position.z = 5`
(zoom stays at the three.js default 1). -/
def defaultPerspectiveCamera : Camera :=
  { isOrthographic := false, zoom := 1, fov := 75, worldPosition := (0, 0, 5) }

/-- The default camera when `orthographic` is set:
`new THREE.OrthographicCamera(0, 0, 0, 0, 0.1, 1000)` with `zoom = 100` and
`position.z = 5`. -/
def defaultOrthographicCamera : Camera :=
  { isOrthographic := true, zoom := 100, fov := 75, worldPosition := (0, 0, 5) }

/-- `getCurrentViewport(camera, target, size)` (source lines 116-132), read
over exact reals (Lean's total division stands in for float division; the
claims that depend on division-by-zero special values use the `JSNum`
reading below instead). -/
noncomputable def getCurrentViewport (camera : Camera) (target : Vec3)
    (size : Size) : ViewportGeom :=
  let aspect := size.width / size.height
  let distance := dist3 camera.worldPosition target
  if camera.isOrthographic then
    { width := size.width / camera.zoom, height := size.height / camera.zoom
      factor := 1, distance := distance, aspect := aspect }
  else
    let fov := camera.fov * Real.pi / 180
    let h := 2 * Real.tan (fov / 2) * distance
    let w := h * (size.width / size.height)
    { width := w, height := h, factor := size.width / w
      distance := distance, aspect := aspect }

/-- The store's `viewport` slice (source lines 173-182, minus the function
field `getCurrentViewport`, which is stateless). -/
structure Viewport where
  initialPixelRatio : ℚ
  pixelRatio : ℚ
  width : ℝ
  height : ℝ
  aspect : ℝ
  distance : ℝ
  factor : ℝ

/-- The slices of the zustand root state that the modelled operations read
or write. -/
structure MockState where
  camera : Camera
  size : Size
  viewport : Viewport
  performance : PerfState
  internal : RegState

/-- A constructed store: the zustand state together with the
construction-time `camera` captured by the closures of `createMockStore`
(notably by `setSize`, which passes this captured `camera` to
`getCurrentViewport` rather than `get().camera`). -/
structure Store where
  camera0 : Camera
  state : MockState

/-- Argument to `setPixelRatio`: a scalar or a `[min, max]` clamp pair. -/
inductive PixelRatioInput where
  | scalar (x : ℚ)
  | pair (lo hi : ℚ)
deriving DecidableEq, Repr

/-- The helper `setPixelRatio` (source lines 107-111):
`Array.isArray(p) ? Math.max(Math.min(p[0], window.devicePixelRatio), p[1]) : p`,
with `env` standing for `window.devicePixelRatio`. -/
def setPixelRatioClamp (env : ℚ) : PixelRatioInput → ℚ
  | PixelRatioInput.scalar x => x
  | PixelRatioInput.pair a b => max (min a env) b

/-- The `defaultTarget` vector captured at store construction (a fresh
`THREE.Vector3()`, i.e. the origin). -/
def defaultTarget : Vec3 := ((0 : ℝ), (0 : ℝ), (0 : ℝ))

/-- The object spread `{ ...state.viewport, ...getCurrentViewport(...) }`:
the five geometry fields are overwritten, the pixel-ratio fields survive. -/
def mergeGeom (v : Viewport) (g : ViewportGeom) : Viewport :=
  { v with
    width := g.width
    height := g.height
    factor := g.factor
    distance := g.distance
    aspect := g.aspect }

/-- `setSize(width, height)` (source lines 188-191): one `set` call writes
the new `size` and, in the same state transition, the viewport recomputed
by `getCurrentViewport(camera, defaultTarget, size)` — where `camera` is
the closure-captured construction-time camera, not `get().camera`. -/
noncomputable def Store.setSize (st : Store) (width height : ℝ) : Store :=
  { st with state := { st.state with
      size := { width := width, height := height }
      viewport := mergeGeom st.state.viewport
        (getCurrentViewport st.camera0 defaultTarget
          { width := width, height := height }) } }

/-- `setCamera(camera)` (source lines 192-194). -/
def Store.setCamera (st : Store) (c : Camera) : Store :=
  { st with state := { st.state with camera := c } }

/-- `setPixelRatio(pixelRatio)` (source lines 195-197): rewrites only
`viewport.pixelRatio` with the clamped value. -/
def Store.setPixelRatio (st : Store) (env : ℚ) (pr : PixelRatioInput) : Store :=
  { st with state := { st.state with viewport :=
      { st.state.viewport with pixelRatio := setPixelRatioClamp env pr } } }

/-- `createMockStore` restricted to the modelled props: the `orthographic`
flag, the `pixelRatio` prop (default 1), the device pixel ratio `env`, the
partial `performance` override, and the optional initial `size`.  The
initial state has `size = {0, 0}` and an all-zero viewport geometry (source
lines 172-182); when a `size` prop is present, `setSize` runs once after
construction (source lines 259-263). -/
noncomputable def createMockStore (orthographic : Bool)
    (pixelRatio : PixelRatioInput) (env : ℚ) (perfProp : PerfOverride)
    (size : Option Size) : Store :=
  let camera := if orthographic then defaultOrthographicCamera
    else defaultPerspectiveCamera
  let initialPixelRatio := setPixelRatioClamp env pixelRatio
  let st0 : Store :=
    { camera0 := camera
      state :=
        { camera := camera
          size := { width := 0, height := 0 }
          viewport :=
            { initialPixelRatio := initialPixelRatio
              pixelRatio := initialPixelRatio
              width := 0, height := 0, aspect := 0, distance := 0, factor := 0 }
          performance := mkPerfState perfProp
          internal := initRegState } }
  match size with
  | none => st0
  | some s => st0.setSize s.width s.height

theorem dist3_on_z (a : ℝ) (h : 0 ≤ a) :
    dist3 ((0 : ℝ), (0 : ℝ), a) ((0 : ℝ), (0 : ℝ), (0 : ℝ)) = a := by
  have h2 : Real.sqrt (((0 : ℝ) - 0) ^ 2 + ((0 : ℝ) - 0) ^ 2 + (a - 0) ^ 2)
      = a := by
    rw [show ((0 : ℝ) - 0) ^ 2 + ((0 : ℝ) - 0) ^ 2 + (a - 0) ^ 2 = a ^ 2 by ring,
      Real.sqrt_sq h]
  exact h2

/-- C4: for every camera, target and size with nonzero dimensions, the
viewport computation returns `aspect = width / height` and
`distance = |cameraWorldPosition - target|`; for an orthographic camera
`width = size.width / zoom`, `height = size.height / zoom`, `factor = 1`;
for a perspective camera `height = 2 * tan(fovRad / 2) * distance`,
`width = height * aspect`, `factor = size.width / width`. -/
theorem getCurrentViewport_spec (camera : Camera) (target : Vec3) (size : Size)
    (hw : size.width ≠ 0) (hh : size.height ≠ 0) :
    (getCurrentViewport camera target size).aspect = size.width / size.height ∧
    (getCurrentViewport camera target size).distance
      = dist3 camera.worldPosition target ∧
    (camera.isOrthographic = true →
      (getCurrentViewport camera target size).width = size.width / camera.zoom ∧
      (getCurrentViewport camera target size).height = size.height / camera.zoom ∧
      (getCurrentViewport camera target size).factor = 1) ∧
    (camera.isOrthographic = false →
      (getCurrentViewport camera target size).height
        = 2 * Real.tan ((camera.fov * Real.pi / 180) / 2)
          * (getCurrentViewport camera target size).distance ∧
      (getCurrentViewport camera target size).width
        = (getCurrentViewport camera target size).height
          * (getCurrentViewport camera target size).aspect ∧
      (getCurrentViewport camera target size).factor
        = size.width / (getCurrentViewport camera target size).width) := by
  cases hc : camera.isOrthographic <;> simp [getCurrentViewport, hc]

/-- Witness for `getCurrentViewport_spec`: an orthographic camera with
zoom 2 and size {200, 100} yields width 100, height 50, factor 1. -/
theorem getCurrentViewport_spec_witness :
    (200 : ℝ) ≠ 0 ∧ (100 : ℝ) ≠ 0 ∧
    (getCurrentViewport ⟨true, 2, 75, ((0 : ℝ), (0 : ℝ), (5 : ℝ))⟩
      defaultTarget ⟨200, 100⟩).width = 100 ∧
    (getCurrentViewport ⟨true, 2, 75, ((0 : ℝ), (0 : ℝ), (5 : ℝ))⟩
      defaultTarget ⟨200, 100⟩).height = 50 ∧
    (getCurrentViewport ⟨true, 2, 75, ((0 : ℝ), (0 : ℝ), (5 : ℝ))⟩
      defaultTarget ⟨200, 100⟩).factor = 1 := by
  have h := getCurrentViewport_spec ⟨true, 2, 75, ((0 : ℝ), (0 : ℝ), (5 : ℝ))⟩
    defaultTarget ⟨200, 100⟩ (by norm_num) (by norm_num)
  obtain ⟨ha, hd, ho, hp⟩ := h
  obtain ⟨hw, hh, hf⟩ := ho rfl
  refine ⟨by norm_num, by norm_num, ?_, ?_, hf⟩
  · rw [hw]; norm_num
  · rw [hh]; norm_num

/-- A replacement camera installed via `setCamera`: perspective, placed at
`z = 10` (so its distance to the default target is 10, not 5). -/
def replacementCamera : Camera :=
  { isOrthographic := false, zoom := 1, fov := 75, worldPosition := (0, 0, 10) }

/-- The store of the C1 counterexample: default construction (perspective
camera at z = 5), then `setCamera` to a camera at z = 10, then
`setSize(2, 1)`. -/
noncomputable def cexStore : Store :=
  ((createMockStore false (PixelRatioInput.scalar 1) 1 ⟨none, none, none⟩
    none).setCamera replacementCamera).setSize 2 1

/-- C1 counterexample: `setSize` does not use the store's current camera.
After replacing the camera with one at distance 10 from the target,
`setSize(2, 1)` stores a viewport whose `distance` is 5 — computed from the
construction-time camera at z = 5 — while the viewport computation applied
to the store's current camera yields distance 10.  The stored viewport
therefore differs from the one the claim prescribes. -/
theorem setSize_uses_construction_camera_cex :
    cexStore.state.camera = replacementCamera ∧
    cexStore.state.viewport.distance = 5 ∧
    (getCurrentViewport cexStore.state.camera defaultTarget
      { width := 2, height := 1 }).distance = 10 ∧
    cexStore.state.viewport.distance
      ≠ (getCurrentViewport cexStore.state.camera defaultTarget
          { width := 2, height := 1 }).distance := by
  have h5 : cexStore.state.viewport.distance = 5 := by
    show dist3 ((0 : ℝ), (0 : ℝ), (5 : ℝ)) ((0 : ℝ), (0 : ℝ), (0 : ℝ)) = 5
    exact dist3_on_z 5 (by norm_num)
  have h10 : (getCurrentViewport cexStore.state.camera defaultTarget
      { width := 2, height := 1 }).distance = 10 := by
    show dist3 ((0 : ℝ), (0 : ℝ), (10 : ℝ)) ((0 : ℝ), (0 : ℝ), (0 : ℝ)) = 10
    exact dist3_on_z 10 (by norm_num)
  refine ⟨rfl, h5, h10, ?_⟩
  rw [h5, h10]
  norm_num

/-- C1 (amended: the viewport is recomputed from the construction-time
camera captured by the `setSize` closure, not from the store's current
camera): `setSize(w, h)` publishes, in one state transition, the new size
together with the viewport whose five geometry fields are exactly
`getCurrentViewport(constructionCamera, defaultTarget, {w, h})`, the
pixel-ratio fields being preserved; for positive dimensions the stored
`viewport.aspect` equals `w / h` exactly. -/
theorem setSize_spec (st : Store) (w h : ℝ) (hw : 0 < w) (hh : 0 < h) :
    (st.setSize w h).state.size = { width := w, height := h } ∧
    (st.setSize w h).state.viewport.width
      = (getCurrentViewport st.camera0 defaultTarget
          { width := w, height := h }).width ∧
    (st.setSize w h).state.viewport.height
      = (getCurrentViewport st.camera0 defaultTarget
          { width := w, height := h }).height ∧
    (st.setSize w h).state.viewport.factor
      = (getCurrentViewport st.camera0 defaultTarget
          { width := w, height := h }).factor ∧
    (st.setSize w h).state.viewport.distance
      = (getCurrentViewport st.camera0 defaultTarget
          { width := w, height := h }).distance ∧
    (st.setSize w h).state.viewport.aspect
      = (getCurrentViewport st.camera0 defaultTarget
          { width := w, height := h }).aspect ∧
    (st.setSize w h).state.viewport.aspect = w / h ∧
    (st.setSize w h).state.viewport.pixelRatio = st.state.viewport.pixelRatio ∧
    (st.setSize w h).state.viewport.initialPixelRatio
      = st.state.viewport.initialPixelRatio := by
  refine ⟨rfl, rfl, rfl, rfl, rfl, rfl, ?_, rfl, rfl⟩
  cases hc : st.camera0.isOrthographic <;>
    simp [Store.setSize, mergeGeom, getCurrentViewport, hc]

/-- Witness for `setSize_spec`: the default store resized to 2 x 1. -/
theorem setSize_spec_witness :
    (0 : ℝ) < 2 ∧ (0 : ℝ) < 1 ∧
    ((createMockStore false (PixelRatioInput.scalar 1) 1 ⟨none, none, none⟩
        none).setSize 2 1).state.size = { width := 2, height := 1 } ∧
    ((createMockStore false (PixelRatioInput.scalar 1) 1 ⟨none, none, none⟩
        none).setSize 2 1).state.viewport.aspect = 2 := by
  have hs := setSize_spec (createMockStore false (PixelRatioInput.scalar 1) 1
    ⟨none, none, none⟩ none) 2 1 (by norm_num) (by norm_num)
  refine ⟨by norm_num, by norm_num, hs.1, ?_⟩
  rw [hs.2.2.2.2.2.2.1]
  norm_num

/-- C3: `setPixelRatio` stores exactly the clamped value prescribed by the
spec formula `isPair ? max(min(pair[0], env), pair[1]) : scalar` in
`viewport.pixelRatio` and leaves every other field of the state unchanged
(camera, size, performance, registry, and all other viewport fields,
including `initialPixelRatio`); with pair [1, 2] and environment pixel
ratio 3 the stored value is 2. -/
theorem setPixelRatio_spec (st : Store) (env : ℚ) (pr : PixelRatioInput) :
    ((st.setPixelRatio env pr).state.viewport.pixelRatio
      = match pr with
        | PixelRatioInput.scalar x => x
        | PixelRatioInput.pair a b => max (min a env) b) ∧
    (st.setPixelRatio env pr).camera0 = st.camera0 ∧
    (st.setPixelRatio env pr).state.camera = st.state.camera ∧
    (st.setPixelRatio env pr).state.size = st.state.size ∧
    (st.setPixelRatio env pr).state.performance = st.state.performance ∧
    (st.setPixelRatio env pr).state.internal = st.state.internal ∧
    (st.setPixelRatio env pr).state.viewport.initialPixelRatio
      = st.state.viewport.initialPixelRatio ∧
    (st.setPixelRatio env pr).state.viewport.width = st.state.viewport.width ∧
    (st.setPixelRatio env pr).state.viewport.height = st.state.viewport.height ∧
    (st.setPixelRatio env pr).state.viewport.aspect = st.state.viewport.aspect ∧
    (st.setPixelRatio env pr).state.viewport.distance
      = st.state.viewport.distance ∧
    (st.setPixelRatio env pr).state.viewport.factor = st.state.viewport.factor ∧
    setPixelRatioClamp 3 (PixelRatioInput.pair 1 2) = 2 := by
  refine ⟨?_, rfl, rfl, rfl, rfl, rfl, rfl, rfl, rfl, rfl, rfl, rfl, by decide⟩
  cases pr <;> rfl

/-! ## JavaScript float special values and the zero-size viewport

The claims about zero-size input concern IEEE-754 special values, so here
`getCurrentViewport` is read again with JavaScript number semantics made
explicit: a value is a finite real, `nan`, or a signed infinity.  Division
follows JavaScript: `0 / 0 = NaN`, `x / 0 = ±Infinity` for nonzero finite
`x` (the denominators reached here are non-negative zeros), `x / NaN = NaN`,
finite `/ Infinity = 0`; multiplication propagates `NaN` and follows the
sign rules otherwise.  (Negative zero is not distinguished: no zero-size
claim involves a negative zero.) -/

inductive JSNum where
  | num (x : ℝ)
  | nan
  | inf (positive : Bool)

def JSNum.isNaN : JSNum → Bool
  | JSNum.nan => true
  | _ => false

noncomputable def jsMul : JSNum → JSNum → JSNum
  | JSNum.nan, _ => JSNum.nan
  | _, JSNum.nan => JSNum.nan
  | JSNum.num a, JSNum.num b => JSNum.num (a * b)
  | JSNum.inf s, JSNum.num b =>
      if b = 0 then JSNum.nan else if 0 < b then JSNum.inf s else JSNum.inf (!s)
  | JSNum.num a, JSNum.inf s =>
      if a = 0 then JSNum.nan else if 0 < a then JSNum.inf s else JSNum.inf (!s)
  | JSNum.inf s, JSNum.inf t => JSNum.inf (s == t)

noncomputable def jsDiv : JSNum → JSNum → JSNum
  | JSNum.nan, _ => JSNum.nan
  | _, JSNum.nan => JSNum.nan
  | JSNum.num a, JSNum.num b =>
      if b = 0 then (if a = 0 then JSNum.nan else JSNum.inf (decide (0 < a)))
      else JSNum.num (a / b)
  | JSNum.num _, JSNum.inf _ => JSNum.num 0
  | JSNum.inf s, JSNum.num b => if 0 ≤ b then JSNum.inf s else JSNum.inf (!s)
  | JSNum.inf _, JSNum.inf _ => JSNum.nan

structure ViewportGeomJS where
  width : JSNum
  height : JSNum
  factor : JSNum
  distance : JSNum
  aspect : JSNum

/-- `getCurrentViewport(camera, target, size)` (source lines 116-132) with
JavaScript float semantics for the divisions and multiplications that can
meet a zero; the camera position, target and field of view are finite, so
`distance` and `2 * tan(fovRad / 2)` are injected as finite values. -/
noncomputable def getCurrentViewportJS (camera : Camera) (target : Vec3)
    (size : Size) : ViewportGeomJS :=
  let aspect := jsDiv (JSNum.num size.width) (JSNum.num size.height)
  let distance := JSNum.num (dist3 camera.worldPosition target)
  if camera.isOrthographic then
    { width := jsDiv (JSNum.num size.width) (JSNum.num camera.zoom)
      height := jsDiv (JSNum.num size.height) (JSNum.num camera.zoom)
      factor := JSNum.num 1, distance := distance, aspect := aspect }
  else
    let fovRad := camera.fov * Real.pi / 180
    let h := jsMul (JSNum.num (2 * Real.tan (fovRad / 2))) distance
    let w := jsMul h aspect
    { width := w, height := h
      factor := jsDiv (JSNum.num size.width) w
      distance := distance, aspect := aspect }

/-- C9 counterexample: the claim says that with zero width or height the
stored `viewport.aspect` and `viewport.factor` are not-a-number until a
nonzero size is set.  In fact the freshly constructed store (size {0, 0})
holds the literal zeros of the initial state — `aspect = 0` and
`factor = 0`, definite numbers, not NaN — and for an orthographic camera
even the recomputed factor at size {0, 0} is the number 1. -/
theorem initial_viewport_zeroed_cex :
    (createMockStore false (PixelRatioInput.scalar 1) 1 ⟨none, none, none⟩
      none).state.viewport.aspect = 0 ∧
    (createMockStore false (PixelRatioInput.scalar 1) 1 ⟨none, none, none⟩
      none).state.viewport.factor = 0 ∧
    (getCurrentViewportJS defaultOrthographicCamera defaultTarget
      { width := 0, height := 0 }).factor.isNaN = false :=
  ⟨rfl, rfl, rfl⟩

/-- C9 (amended): the viewport computation is a total function — zero
width or height cannot raise — and under JavaScript float semantics the
computation on the freshly constructed default store's inputs (perspective
camera, size {0, 0}) yields NaN `aspect`, `width` and `factor` (`0 / 0` and
its propagation), while the state stored at construction carries zeros
rather than NaN until `setSize` runs. -/
theorem viewport_zero_size_nan_spec :
    (getCurrentViewportJS defaultPerspectiveCamera defaultTarget
      { width := 0, height := 0 }).aspect.isNaN = true ∧
    (getCurrentViewportJS defaultPerspectiveCamera defaultTarget
      { width := 0, height := 0 }).width.isNaN = true ∧
    (getCurrentViewportJS defaultPerspectiveCamera defaultTarget
      { width := 0, height := 0 }).factor.isNaN = true := by
  have h0 : jsDiv (JSNum.num (0 : ℝ)) (JSNum.num (0 : ℝ)) = JSNum.nan := by
    simp [jsDiv]
  have haspect : (getCurrentViewportJS defaultPerspectiveCamera defaultTarget
      { width := 0, height := 0 }).aspect = JSNum.nan := by
    show jsDiv (JSNum.num (0 : ℝ)) (JSNum.num (0 : ℝ)) = JSNum.nan
    exact h0
  have hwidth : (getCurrentViewportJS defaultPerspectiveCamera defaultTarget
      { width := 0, height := 0 }).width = JSNum.nan := by
    show jsMul (jsMul (JSNum.num _) (JSNum.num _))
      (jsDiv (JSNum.num (0 : ℝ)) (JSNum.num (0 : ℝ))) = JSNum.nan
    rw [h0]
    rfl
  have hfactor : (getCurrentViewportJS defaultPerspectiveCamera defaultTarget
      { width := 0, height := 0 }).factor = JSNum.nan := by
    show jsDiv (JSNum.num (0 : ℝ)) (jsMul (jsMul (JSNum.num _) (JSNum.num _))
      (jsDiv (JSNum.num (0 : ℝ)) (JSNum.num (0 : ℝ)))) = JSNum.nan
    rw [h0]
    rfl
  rw [haspect, hwidth, hfactor]
  exact ⟨rfl, rfl, rfl⟩
